import Mathlib

/-!
Shallow embedding of the `fastapi-inventory` service (files `routes.py`,
`models.py`, `main.py`) and proofs of the specification claims.

Modelling conventions:
* Python `dict` values are insertion-ordered association lists; dictionary
  assignment updates an existing key in place and appends a fresh key at the
  end, exactly as CPython does.
* Python `int` is `Int` (or `Nat` for the server-assigned item counter, which
  starts at 1 and only grows); Python `float` prices are modelled as `Rat`,
  which is order-faithful since the code only ever compares prices.
* `list.sort(key=..., reverse=...)` is a stable sort by the chosen key; the
  output of a stable sort is uniquely determined by the key order and the
  input order, so we embed it as `List.insertionSort` with the corresponding
  total preorder (ties resolved towards the earlier element, as in CPython).
* Raising `HTTPException` before any mutation is embedded as returning
  `Except.error` carrying the status code and detail; the post-state of a
  handler call is recovered by `applyOp` / `register_state`, which keep the
  old state on error.
* `random.random()` / `random.choice` are embedded by passing the drawn
  number and the choice index as explicit arguments.
-/

namespace Inventory

/-- `models.InventoryItem`: the request payload for item bodies. -/
structure InventoryItem where
  name : String
  quantity : Int
  price : Rat
  description : Option String := none
deriving Repr, DecidableEq

/-- A record of the `inventory` dictionary in `routes.py`: the payload fields
plus `created_by`.  `created_by` is `Option` because Python reads it back with
`dict.get`, which tolerates its absence. -/
structure StoredItem where
  name : String
  quantity : Int
  price : Rat
  description : Option String
  created_by : Option String
deriving Repr, DecidableEq

/-- `models.UserInDB`: internal user record held in the user directory. -/
structure UserInDB where
  username : String
  full_name : Option String
  role : String
  disabled : Bool
  hashed_password : String
deriving Repr, DecidableEq

/-- `models.RegisterRequest`: the registration payload (`role` defaults to
`"user"`). -/
structure RegisterRequest where
  username : String
  password : String
  full_name : Option String := none
  role : String := "user"
deriving Repr, DecidableEq

/-- `fastapi.HTTPException`, reduced to the data the handlers set. -/
structure HTTPException where
  status_code : Nat
  detail : String
deriving Repr, DecidableEq

/-- The process-wide mutable state of `routes.py` (and of the user directory
`fake_users_db` that registration writes to). -/
structure AppState where
  inventory : List (Nat × StoredItem)
  next_item_id : Nat
  fake_users_db : List (String × UserInDB)
deriving Repr, DecidableEq

/-- Python `dict` lookup on an insertion-ordered association list. -/
def dictLookup {α β : Type} [DecidableEq α] (k : α) : List (α × β) → Option β
  | [] => none
  | p :: t => if p.1 = k then some p.2 else dictLookup k t

/-- Python `dict` assignment `d[k] = v`: update in place when `k` is present,
append at the end when it is fresh. -/
def dictInsert {α β : Type} [DecidableEq α] (k : α) (v : β) (l : List (α × β)) :
    List (α × β) :=
  if (dictLookup k l).isSome then l.map (fun p => if p.1 = k then (k, v) else p)
  else l ++ [(k, v)]

/-- Python `del d[k]`. -/
def dictErase {α β : Type} [DecidableEq α] (k : α) (l : List (α × β)) :
    List (α × β) :=
  l.filter (fun p => decide (p.1 ≠ k))

/-- The initial process state: empty inventory, counter at 1, and whatever the
authentication module seeded the user directory with. -/
def initState (users : List (String × UserInDB)) : AppState :=
  { inventory := [], next_item_id := 1, fake_users_db := users }

/-- The stored record built from a request body and a `created_by` value, as
both `add_item` and `update_item` build it via `{**item.dict(), "created_by": ...}`. -/
def mkStored (item : InventoryItem) (cb : Option String) : StoredItem :=
  { name := item.name, quantity := item.quantity, price := item.price,
    description := item.description, created_by := cb }

/-- `routes.add_item`: assigns `item_id = next_item_id`, stores the record with
`created_by` set to the acting admin, increments the counter, and returns the
stored record merged with its id.  It has no failure path beyond the guards. -/
def add_item (item : InventoryItem) (username : String) (s : AppState) :
    (Nat × StoredItem) × AppState :=
  let item_id := s.next_item_id
  let stored := mkStored item (some username)
  ((item_id, stored),
   { s with inventory := dictInsert item_id stored s.inventory,
            next_item_id := s.next_item_id + 1 })

/-- `routes.update_item`: 404 when the id is absent; otherwise replaces the
record with the body's fields, keeping the existing `created_by` and falling
back to the acting admin only when the record had none (`dict.get` default). -/
def update_item (item_id : Nat) (item : InventoryItem) (username : String)
    (s : AppState) : Except HTTPException ((Nat × StoredItem) × AppState) :=
  match dictLookup item_id s.inventory with
  | none => .error ⟨404, "Item not found"⟩
  | some existing =>
    let stored := mkStored item (some (existing.created_by.getD username))
    .ok ((item_id, stored),
         { s with inventory := dictInsert item_id stored s.inventory })

/-- `routes.delete_item`: 404 when the id is absent; otherwise removes the
record and answers with an empty 204 response (modelled as the bare status). -/
def delete_item (item_id : Nat) (s : AppState) :
    Except HTTPException (Nat × AppState) :=
  match dictLookup item_id s.inventory with
  | none => .error ⟨404, "Item not found"⟩
  | some _ => .ok (204, { s with inventory := dictErase item_id s.inventory })

/-- `routes.get_item`: 404 when the id is absent, else the stored record merged
with its id. -/
def get_item (item_id : Nat) (s : AppState) :
    Except HTTPException (Nat × StoredItem) :=
  match dictLookup item_id s.inventory with
  | none => .error ⟨404, "Item not found"⟩
  | some it => .ok (item_id, it)

/-- `routes.register_user`, with the password hash of the authentication module
passed in as a function: 400 when the username is taken, else store a new
`UserInDB` (role taken verbatim from the request, `disabled` defaulting to
false) and return the confirmation message. -/
def register_user (user : RegisterRequest) (hashPw : String → String)
    (s : AppState) : Except HTTPException (String × AppState) :=
  if (dictLookup user.username s.fake_users_db).isSome then
    .error ⟨400, "User already exists"⟩
  else
    .ok ("User " ++ user.username ++ " registered successfully.",
         { s with fake_users_db := (dictInsert user.username
            ({ username := user.username, full_name := user.full_name,
               role := user.role, disabled := false,
               hashed_password := hashPw user.password } : UserInDB)
            s.fake_users_db) })

/-- The state after a `register_user` call: unchanged when the handler raised. -/
def register_state (user : RegisterRequest) (hashPw : String → String)
    (s : AppState) : AppState :=
  match register_user user hashPw s with
  | .ok (_, s') => s'
  | .error _ => s

/-- Python's substring operator `needle in hay` on character lists. -/
def hasSubstr (needle : List Char) : List Char → Bool
  | [] => decide (needle = [])
  | c :: t => needle.isPrefixOf (c :: t) || hasSubstr needle t

/-- Python's `str.lower()`, as the character-wise lowercasing of the string's
characters (exact on the ASCII names the service deals in). -/
def lower (s : String) : List Char :=
  s.toList.map Char.toLower

/-- Python's `<=` on strings: lexicographic comparison by code point. -/
def charListLe : List Char → List Char → Bool
  | [], _ => true
  | _ :: _, [] => false
  | a :: as, b :: bs =>
    if a.toNat < b.toNat then true
    else if b.toNat < a.toNat then false
    else charListLe as bs

/-- The `sort_by` query parameter, constrained to `name|price|quantity`. -/
inductive SortKey where
  | name
  | price
  | quantity
deriving Repr, DecidableEq

/-- The `order` query parameter, constrained to `asc|desc`. -/
inductive SortOrder where
  | asc
  | desc
deriving Repr, DecidableEq

/-- The query parameters of `routes.list_items` (defaults as in the code). -/
structure ListQuery where
  name : Option String := none
  min_price : Option Rat := none
  max_price : Option Rat := none
  min_quantity : Option Int := none
  skip : Nat := 0
  limit : Nat := 10
  sort_by : SortKey := .name
  order : SortOrder := .asc
deriving Repr, DecidableEq

/-- The first `continue` of the loop: `if name and name.lower() not in
item["name"].lower()`.  An absent or empty `name` parameter is falsy, so it
never skips. -/
def nameSkip (q : ListQuery) (item : StoredItem) : Bool :=
  match q.name with
  | none => false
  | some f => !f.isEmpty && !hasSubstr (lower f) (lower item.name)

/-- `if min_price is not None and item["price"] < min_price: continue`. -/
def minPriceSkip (q : ListQuery) (item : StoredItem) : Bool :=
  match q.min_price with
  | none => false
  | some v => decide (item.price < v)

/-- `if max_price is not None and item["price"] > max_price: continue`. -/
def maxPriceSkip (q : ListQuery) (item : StoredItem) : Bool :=
  match q.max_price with
  | none => false
  | some v => decide (v < item.price)

/-- `if min_quantity is not None and item["quantity"] < min_quantity: continue`. -/
def minQuantitySkip (q : ListQuery) (item : StoredItem) : Bool :=
  match q.min_quantity with
  | none => false
  | some v => decide (item.quantity < v)

/-- An item reaches `results.append` iff no `continue` fired. -/
def keepItem (q : ListQuery) (item : StoredItem) : Bool :=
  !nameSkip q item && !minPriceSkip q item && !maxPriceSkip q item &&
    !minQuantitySkip q item

/-- The `results` list built by the filter loop of `routes.list_items`:
the entries of the inventory dictionary, in insertion order, that pass every
supplied filter (each entry already merged with its id). -/
def filteredResults (q : ListQuery) (s : AppState) : List (Nat × StoredItem) :=
  s.inventory.filter (fun p => keepItem q p.2)

/-- The comparison `results.sort(key=lambda x: x[sort_by], reverse=...)`
induces: ascending (or with `reverse`, descending) in the chosen key, with
ties always resolved towards the element that came first. -/
def sortLe (sb : SortKey) (ord : SortOrder) (a b : Nat × StoredItem) : Bool :=
  match ord with
  | .asc =>
    match sb with
    | .name => charListLe a.2.name.toList b.2.name.toList
    | .price => decide (a.2.price ≤ b.2.price)
    | .quantity => decide (a.2.quantity ≤ b.2.quantity)
  | .desc =>
    match sb with
    | .name => charListLe b.2.name.toList a.2.name.toList
    | .price => decide (b.2.price ≤ a.2.price)
    | .quantity => decide (b.2.quantity ≤ a.2.quantity)

/-- `results` after the in-place stable sort (`list.sort` is stable, and a
stable sort's output is determined by the key order and the input order). -/
def sortedResults (q : ListQuery) (s : AppState) : List (Nat × StoredItem) :=
  (filteredResults q s).insertionSort (fun a b => sortLe q.sort_by q.order a b = true)

/-- The response body of `routes.list_items`. -/
structure ListResponse where
  total : Nat
  skip : Nat
  limit : Nat
  items : List (Nat × StoredItem)
deriving Repr, DecidableEq

/-- `routes.list_items`: filter, stable sort, then the slice
`results[skip : skip + limit]`; `total` is the length before pagination. -/
def list_items (q : ListQuery) (s : AppState) : ListResponse :=
  let results := sortedResults q s
  { total := results.length, skip := q.skip, limit := q.limit,
    items := (results.drop q.skip).take q.limit }

/-- `random.choice([500, 502, 503])`, with the chosen index passed explicitly. -/
def pickErrorCode : Fin 3 → Nat
  | ⟨0, _⟩ => 500
  | ⟨1, _⟩ => 502
  | ⟨2, _⟩ => 503

/-- `routes.simulate_error`, with the two random draws passed explicitly:
`r` is the value of `random.random()` and `pick` the index `random.choice`
selects from `[500, 502, 503]`. -/
def simulate_error (error_rate : Rat) (r : Rat) (pick : Fin 3) :
    Except HTTPException String :=
  if r < error_rate then .error ⟨pickErrorCode pick, "Simulated error"⟩
  else .ok "Success - no error simulated"

namespace MainApp

/-- The separate in-memory store of the legacy `main.py` variant: a dictionary
from caller-supplied ids (arbitrary Python ints) to plain `InventoryItem`s. -/
abbrev Store := List (Int × InventoryItem)

/-- `main.add_item`: unauthenticated, caller-supplied `item_id`; 400 when the
id is taken, else store the body and return it merged with the id. -/
def add_item (item_id : Int) (item : InventoryItem) (inv : Store) :
    Except HTTPException ((Int × InventoryItem) × Store) :=
  match dictLookup item_id inv with
  | some _ => .error ⟨400, "Item ID already exists"⟩
  | none => .ok ((item_id, item), dictInsert item_id item inv)

/-- The store after a `main.add_item` call: unchanged when the handler raised. -/
def add_state (item_id : Int) (item : InventoryItem) (inv : Store) : Store :=
  match add_item item_id item inv with
  | .ok (_, inv') => inv'
  | .error _ => inv

end MainApp

/-- One admin-gated mutation of the router's item store. -/
inductive Op where
  | add (item : InventoryItem) (username : String)
  | update (item_id : Nat) (item : InventoryItem) (username : String)
  | del (item_id : Nat)
deriving Repr

/-- The state after one handler call (a raised `HTTPException` mutates
nothing, so the state is kept on error). -/
def applyOp (s : AppState) : Op → AppState
  | .add item u => (add_item item u s).2
  | .update i item u =>
    match update_item i item u s with
    | .ok (_, s') => s'
    | .error _ => s
  | .del i =>
    match delete_item i s with
    | .ok (_, s') => s'
    | .error _ => s

/-- The state after a sequence of handler calls. -/
def runOps (s : AppState) : List Op → AppState
  | [] => s
  | op :: rest => runOps (applyOp s op) rest

/-- The externally visible identifier events of one call: a successful add
assigns the id it returns, a successful delete frees its id. -/
inductive Ev where
  | assigned (id : Nat)
  | deleted (id : Nat)
deriving Repr, DecidableEq

/-- The identifier events of one handler call. -/
def opEvents (s : AppState) : Op → List Ev
  | .add item u => [.assigned (add_item item u s).1.1]
  | .update _ _ _ => []
  | .del i =>
    match delete_item i s with
    | .ok _ => [.deleted i]
    | .error _ => []

/-- The identifier events of a sequence of handler calls. -/
def runEvents (s : AppState) : List Op → List Ev
  | [] => []
  | op :: rest => opEvents s op ++ runEvents (applyOp s op) rest

/-- The identifiers assigned along an event trace, in order. -/
def assignedIds : List Ev → List Nat
  | [] => []
  | .assigned i :: t => i :: assignedIds t
  | .deleted _ :: t => assignedIds t

/-- How many adds a sequence of operations contains (every add succeeds). -/
def countAdds : List Op → Nat
  | [] => 0
  | .add _ _ :: t => countAdds t + 1
  | .update _ _ _ :: t => countAdds t
  | .del _ :: t => countAdds t

/-! ### Dictionary lemmas -/

theorem dictLookup_map_update {α β : Type} [DecidableEq α] (k : α) (v : β) :
    ∀ l : List (α × β),
      dictLookup k (l.map (fun p => if p.1 = k then (k, v) else p)) =
        (dictLookup k l).map (fun _ => v)
  | [] => rfl
  | p :: t => by
    by_cases h : p.1 = k
    · simp [dictLookup, h]
    · simp only [List.map_cons, if_neg h, dictLookup, if_neg h]
      exact dictLookup_map_update k v t

theorem dictLookup_map_update_ne {α β : Type} [DecidableEq α] {j k : α}
    (hne : j ≠ k) (v : β) :
    ∀ l : List (α × β),
      dictLookup j (l.map (fun p => if p.1 = k then (k, v) else p)) = dictLookup j l
  | [] => rfl
  | p :: t => by
    by_cases h : p.1 = k
    · have h1 : ¬(k = j) := fun hh => hne hh.symm
      have h2 : ¬(p.1 = j) := by rw [h]; exact h1
      simp only [List.map_cons, if_pos h, dictLookup, if_neg h1, if_neg h2]
      exact dictLookup_map_update_ne hne v t
    · simp only [List.map_cons, if_neg h, dictLookup]
      by_cases hj : p.1 = j
      · simp [hj]
      · simp only [if_neg hj]
        exact dictLookup_map_update_ne hne v t

theorem dictLookup_append_self {α β : Type} [DecidableEq α] {k : α} (v : β) :
    ∀ {l : List (α × β)}, dictLookup k l = none →
      dictLookup k (l ++ [(k, v)]) = some v
  | [], _ => by simp [dictLookup]
  | p :: t, h => by
    rw [dictLookup] at h
    by_cases hp : p.1 = k
    · rw [if_pos hp] at h
      cases h
    · rw [if_neg hp] at h
      simp only [List.cons_append, dictLookup, if_neg hp]
      exact dictLookup_append_self v h

theorem dictLookup_append_ne {α β : Type} [DecidableEq α] {j k : α}
    (hne : j ≠ k) (v : β) :
    ∀ l : List (α × β), dictLookup j (l ++ [(k, v)]) = dictLookup j l
  | [] => by
    simp only [List.nil_append, dictLookup]
    rw [if_neg (fun hh => hne hh.symm)]
  | p :: t => by
    simp only [List.cons_append, dictLookup]
    by_cases hp : p.1 = j
    · simp [hp]
    · simp only [if_neg hp]
      exact dictLookup_append_ne hne v t

theorem dictLookup_dictInsert_self {α β : Type} [DecidableEq α] (k : α) (v : β)
    (l : List (α × β)) : dictLookup k (dictInsert k v l) = some v := by
  unfold dictInsert
  by_cases h : (dictLookup k l).isSome
  · rw [if_pos h, dictLookup_map_update]
    obtain ⟨w, hw⟩ := Option.isSome_iff_exists.mp h
    rw [hw]
    rfl
  · rw [if_neg h]
    exact dictLookup_append_self v (Option.not_isSome_iff_eq_none.mp h)

theorem dictLookup_dictInsert_ne {α β : Type} [DecidableEq α] {j k : α} (v : β)
    (l : List (α × β)) (h : j ≠ k) :
    dictLookup j (dictInsert k v l) = dictLookup j l := by
  unfold dictInsert
  by_cases hs : (dictLookup k l).isSome
  · rw [if_pos hs]
    exact dictLookup_map_update_ne h v l
  · rw [if_neg hs]
    exact dictLookup_append_ne h v l

theorem dictLookup_dictErase_self {α β : Type} [DecidableEq α] (k : α) :
    ∀ l : List (α × β), dictLookup k (dictErase k l) = none
  | [] => rfl
  | p :: t => by
    by_cases h : p.1 = k
    · have : (decide (p.1 ≠ k)) = false := by simp [h]
      simp only [dictErase, List.filter_cons, this, if_neg, Bool.false_eq_true,
        not_false_eq_true]
      exact dictLookup_dictErase_self k t
    · have : (decide (p.1 ≠ k)) = true := by simp [h]
      simp only [dictErase, List.filter_cons, this, if_pos, dictLookup, if_neg h]
      exact dictLookup_dictErase_self k t

theorem dictLookup_dictErase_ne {α β : Type} [DecidableEq α] {j k : α}
    (h : j ≠ k) : ∀ l : List (α × β),
      dictLookup j (dictErase k l) = dictLookup j l
  | [] => rfl
  | p :: t => by
    by_cases hk : p.1 = k
    · have hd : (decide (p.1 ≠ k)) = false := by simp [hk]
      have hj : ¬(p.1 = j) := by rw [hk]; exact fun hh => h hh.symm
      simp only [dictErase, List.filter_cons, hd, if_neg, Bool.false_eq_true,
        not_false_eq_true, dictLookup, if_neg hj]
      exact dictLookup_dictErase_ne h t
    · have hd : (decide (p.1 ≠ k)) = true := by simp [hk]
      simp only [dictErase, List.filter_cons, hd, if_pos, dictLookup]
      by_cases hj : p.1 = j
      · simp [hj]
      · simp only [if_neg hj]
        exact dictLookup_dictErase_ne h t

theorem dictInsert_of_lookup_none {α β : Type} [DecidableEq α] {k : α} (v : β)
    {l : List (α × β)} (h : dictLookup k l = none) :
    dictInsert k v l = l ++ [(k, v)] := by
  unfold dictInsert
  rw [h]
  rfl

theorem mem_of_dictLookup_eq_some {α β : Type} [DecidableEq α] {k : α} {v : β} :
    ∀ {l : List (α × β)}, dictLookup k l = some v → (k, v) ∈ l
  | [], h => by cases h
  | p :: t, h => by
    rw [dictLookup] at h
    by_cases hp : p.1 = k
    · rw [if_pos hp] at h
      injection h with hv
      have hkv : (k, v) = p := Prod.ext hp.symm hv.symm
      rw [hkv]
      exact List.mem_cons_self p t
    · rw [if_neg hp] at h
      exact List.mem_cons_of_mem _ (mem_of_dictLookup_eq_some h)

theorem mem_dictInsert {α β : Type} [DecidableEq α] {k : α} {v : β}
    {l : List (α × β)} {p : α × β} (h : p ∈ dictInsert k v l) :
    p ∈ l ∨ p = (k, v) := by
  unfold dictInsert at h
  split at h
  · obtain ⟨q, hq, hpq⟩ := List.mem_map.mp h
    by_cases hk : q.1 = k
    · right
      rw [if_pos hk] at hpq
      exact hpq.symm
    · left
      rw [if_neg hk] at hpq
      exact hpq ▸ hq
  · rcases List.mem_append.mp h with h1 | h1
    · exact Or.inl h1
    · exact Or.inr (List.mem_singleton.mp h1)

/-! ### C2: update semantics -/

/-- C2: updating an absent id fails with 404 and leaves the store unchanged;
updating an existing item replaces all four payload fields with the request
body's values and keeps the original record's `created_by`, falling back to
the updating admin's username only when the record had none. -/
theorem update_item_spec (s : AppState) (item_id : Nat) (item : InventoryItem)
    (u : String) :
    (dictLookup item_id s.inventory = none →
       update_item item_id item u s = .error ⟨404, "Item not found"⟩ ∧
       applyOp s (.update item_id item u) = s) ∧
    (∀ ex, dictLookup item_id s.inventory = some ex →
       ∃ s', update_item item_id item u s =
           .ok ((item_id, mkStored item (some (ex.created_by.getD u))), s') ∧
         dictLookup item_id s'.inventory =
           some (mkStored item (some (ex.created_by.getD u))) ∧
         s'.next_item_id = s.next_item_id ∧
         s'.fake_users_db = s.fake_users_db) := by
  constructor
  · intro h
    constructor
    · simp [update_item, h]
    · simp [applyOp, update_item, h]
  · intro ex h
    refine ⟨{ s with inventory := (dictInsert item_id
        (mkStored item (some (ex.created_by.getD u))) s.inventory) },
      ?_, ?_, rfl, rfl⟩
    · simp [update_item, h]
    · exact dictLookup_dictInsert_self ..

/-! ### C6: registration semantics -/

/-- C6: registration fails with 400 and leaves the user directory unchanged
exactly when the username is already present; otherwise it appends a new
`UserInDB` with the hashed password and the submitted role string stored
verbatim, and returns a confirmation message. -/
theorem register_user_spec (s : AppState) (req : RegisterRequest)
    (hashPw : String → String) :
    ((dictLookup req.username s.fake_users_db).isSome = true →
       register_user req hashPw s = .error ⟨400, "User already exists"⟩ ∧
       register_state req hashPw s = s) ∧
    ((dictLookup req.username s.fake_users_db).isSome = false →
       register_user req hashPw s =
         .ok ("User " ++ req.username ++ " registered successfully.",
              { s with fake_users_db := s.fake_users_db ++
                 [(req.username,
                   { username := req.username, full_name := req.full_name,
                     role := req.role, disabled := false,
                     hashed_password := hashPw req.password })] })) := by
  constructor
  · intro h
    constructor
    · rw [register_user, if_pos h]
    · rw [register_state]
      simp [register_user, h]
  · intro h
    have hnone : dictLookup req.username s.fake_users_db = none :=
      Option.not_isSome_iff_eq_none.mp (by simp [h])
    rw [register_user, if_neg (by simp [h]), dictInsert_of_lookup_none _ hnone]

/-! ### C9: the legacy `main.py` add -/

/-- C9: the legacy self-contained variant's add takes a caller-supplied id and
no credentials; it fails with 400 and leaves its store unchanged exactly when
the id is already present, and otherwise appends the submitted item under that
id and returns it merged with the id. -/
theorem main_add_item_spec (inv : MainApp.Store) (item_id : Int)
    (item : InventoryItem) :
    ((dictLookup item_id inv).isSome = true →
       MainApp.add_item item_id item inv = .error ⟨400, "Item ID already exists"⟩ ∧
       MainApp.add_state item_id item inv = inv) ∧
    (dictLookup item_id inv = none →
       MainApp.add_item item_id item inv =
         .ok ((item_id, item), inv ++ [(item_id, item)]) ∧
       dictLookup item_id (MainApp.add_state item_id item inv) =
         some item) := by
  constructor
  · intro h
    obtain ⟨w, hw⟩ := Option.isSome_iff_exists.mp h
    constructor
    · simp [MainApp.add_item, hw]
    · simp [MainApp.add_state, MainApp.add_item, hw]
  · intro h
    constructor
    · simp [MainApp.add_item, h, dictInsert_of_lookup_none _ h]
    · simp only [MainApp.add_state, MainApp.add_item, h]
      exact dictLookup_dictInsert_self ..

/-! ### C10: frame conditions of the three mutations -/

/-- C10: a successful add, update, or delete of item `i` leaves every stored
item with another identifier unchanged; update and delete keep `next_item_id`,
an add increments it by exactly one, and none of the three touches the user
directory. -/
theorem crud_frame_spec (s : AppState) :
    (∀ item u j, j ≠ (add_item item u s).1.1 →
       dictLookup j (add_item item u s).2.inventory = dictLookup j s.inventory) ∧
    (∀ item u, (add_item item u s).2.next_item_id = s.next_item_id + 1 ∧
       (add_item item u s).2.fake_users_db = s.fake_users_db) ∧
    (∀ i item u r s', update_item i item u s = .ok (r, s') →
       (∀ j, j ≠ i → dictLookup j s'.inventory = dictLookup j s.inventory) ∧
       s'.next_item_id = s.next_item_id ∧ s'.fake_users_db = s.fake_users_db) ∧
    (∀ i c s', delete_item i s = .ok (c, s') →
       (∀ j, j ≠ i → dictLookup j s'.inventory = dictLookup j s.inventory) ∧
       s'.next_item_id = s.next_item_id ∧ s'.fake_users_db = s.fake_users_db) := by
  refine ⟨?_, ?_, ?_, ?_⟩
  · intro item u j hj
    exact dictLookup_dictInsert_ne _ _ hj
  · intro item u
    exact ⟨rfl, rfl⟩
  · intro i item u r s' h
    rw [update_item] at h
    cases hl : dictLookup i s.inventory with
    | none =>
      rw [hl] at h
      cases h
    | some ex =>
      rw [hl] at h
      injection h with hpair
      have hs : ({ s with inventory := (dictInsert i
          (mkStored item (some (ex.created_by.getD u))) s.inventory) } :
            AppState) = s' := congrArg Prod.snd hpair
      subst hs
      refine ⟨fun j hj => dictLookup_dictInsert_ne _ _ hj, rfl, rfl⟩
  · intro i c s' h
    rw [delete_item] at h
    cases hl : dictLookup i s.inventory with
    | none =>
      rw [hl] at h
      cases h
    | some ex =>
      rw [hl] at h
      injection h with hpair
      have hs : ({ s with inventory := dictErase i s.inventory } : AppState) = s' :=
        congrArg Prod.snd hpair
      subst hs
      refine ⟨fun j hj => dictLookup_dictErase_ne hj _, rfl, rfl⟩

/-! ### C7: delete semantics -/

theorem mem_inventory_of_mem_list_items {q : ListQuery} {s : AppState}
    {p : Nat × StoredItem} (h : p ∈ (list_items q s).items) : p ∈ s.inventory := by
  have h1 : p ∈ sortedResults q s :=
    List.mem_of_mem_drop (List.mem_of_mem_take h)
  have h2 : p ∈ filteredResults q s :=
    (List.perm_insertionSort _ _).mem_iff.mp h1
  exact (List.mem_filter.mp h2).1

/-- C7: deleting an absent id fails with 404 and leaves the store unchanged;
deleting an existing item removes exactly that record, answers 204 with no
body, and afterwards a get of the same id fails with 404 and the id appears in
no list-items result, whatever the query. -/
theorem delete_item_spec (s : AppState) (item_id : Nat) :
    (dictLookup item_id s.inventory = none →
       delete_item item_id s = .error ⟨404, "Item not found"⟩ ∧
       applyOp s (.del item_id) = s) ∧
    (∀ ex, dictLookup item_id s.inventory = some ex →
       ∃ s', delete_item item_id s = .ok (204, s') ∧
         s'.inventory = dictErase item_id s.inventory ∧
         dictLookup item_id s'.inventory = none ∧
         get_item item_id s' = .error ⟨404, "Item not found"⟩ ∧
         ∀ q p, p ∈ (list_items q s').items → p.1 ≠ item_id) := by
  constructor
  · intro h
    exact ⟨by simp [delete_item, h], by simp [applyOp, delete_item, h]⟩
  · intro ex h
    refine ⟨{ s with inventory := dictErase item_id s.inventory },
      by simp [delete_item, h], rfl, dictLookup_dictErase_self .., ?_, ?_⟩
    · simp [get_item, dictLookup_dictErase_self]
    · intro q p hp hcontra
      have h1 := mem_inventory_of_mem_list_items hp
      simp only [dictErase] at h1
      have h2 := List.of_mem_filter h1
      rw [hcontra] at h2
      simp at h2

/-! ### C8: simulated errors -/

theorem pickErrorCode_mem (pick : Fin 3) :
    pickErrorCode pick = 500 ∨ pickErrorCode pick = 502 ∨
      pickErrorCode pick = 503 := by
  rcases pick with ⟨pv, hpv⟩
  interval_cases pv <;> simp [pickErrorCode]

/-- C8: with the drawn number `r` uniform in `[0,1)`, the endpoint fails with
one of the codes 500, 502, 503 exactly when `r < error_rate`; in particular
`error_rate = 0` never simulates an error and `error_rate = 1` always does. -/
theorem simulate_error_spec (error_rate r : Rat) (pick : Fin 3)
    (h0 : 0 ≤ r) (h1 : r < 1) :
    ((∃ e, simulate_error error_rate r pick = .error e) ↔ r < error_rate) ∧
    (∀ e, simulate_error error_rate r pick = .error e →
       e.detail = "Simulated error" ∧
       (e.status_code = 500 ∨ e.status_code = 502 ∨ e.status_code = 503)) ∧
    (error_rate = 0 →
       simulate_error error_rate r pick = .ok "Success - no error simulated") ∧
    (error_rate = 1 →
       ∃ c, simulate_error error_rate r pick = .error ⟨c, "Simulated error"⟩ ∧
         (c = 500 ∨ c = 502 ∨ c = 503)) := by
  refine ⟨?_, ?_, ?_, ?_⟩
  · constructor
    · rintro ⟨e, he⟩
      by_contra hlt
      rw [simulate_error, if_neg hlt] at he
      cases he
    · intro hlt
      rw [simulate_error, if_pos hlt]
      exact ⟨_, rfl⟩
  · intro e he
    rw [simulate_error] at he
    split at he
    · injection he with he'
      subst he'
      exact ⟨rfl, pickErrorCode_mem pick⟩
    · cases he
  · intro h
    subst h
    rw [simulate_error, if_neg (not_lt.mpr h0)]
  · intro h
    subst h
    rw [simulate_error, if_pos h1]
    exact ⟨_, rfl, pickErrorCode_mem pick⟩

/-- Witness for C8 at `error_rate = 1`, `r = 0`, first error choice. -/
theorem simulate_error_spec_witness :
    (∃ e, simulate_error 1 0 0 = .error e) ↔ (0 : Rat) < 1 :=
  (simulate_error_spec 1 0 0 (by decide) (by decide)).1

/-! ### C3: filter semantics -/

/-- The filter predicate as the specification words it: the conjunction of the
supplied predicates, `name` a case-insensitive substring containment check and
the numeric filters inclusive bounds.  Stated independently of `keepItem`
(which is the code's skip logic) to be compared against it. -/
def specKeep (q : ListQuery) (item : StoredItem) : Bool :=
  (match q.name with
   | none => true
   | some f => hasSubstr (lower f) (lower item.name)) &&
  (match q.min_price with
   | none => true
   | some v => decide (v ≤ item.price)) &&
  (match q.max_price with
   | none => true
   | some v => decide (item.price ≤ v)) &&
  (match q.min_quantity with
   | none => true
   | some v => decide (v ≤ item.quantity))

theorem hasSubstr_nil (l : List Char) : hasSubstr [] l = true := by
  cases l with
  | nil => rfl
  | cons c t => simp [hasSubstr, List.isPrefixOf]

theorem lower_empty : lower "" = [] := rfl

/-- The code's skip logic agrees with the specification's conjunction of
predicates pointwise (the code's special case for an empty `name` string is
absorbed by the empty string being a substring of everything). -/
theorem keepItem_eq_specKeep (q : ListQuery) (item : StoredItem) :
    keepItem q item = specKeep q item := by
  unfold keepItem specKeep nameSkip minPriceSkip maxPriceSkip minQuantitySkip
  cases hn : q.name with
  | none =>
    cases q.min_price <;> cases q.max_price <;> cases q.min_quantity <;>
      simp [← decide_not, not_lt]
  | some f =>
    by_cases hf : f.isEmpty = true
    · have hf0 : f = "" := (String.isEmpty_iff f).mp hf
      subst hf0
      cases q.min_price <;> cases q.max_price <;> cases q.min_quantity <;>
        simp [hasSubstr_nil, lower_empty, ← decide_not, not_lt]
    · cases q.min_price <;> cases q.max_price <;> cases q.min_quantity <;>
        simp [hf, ← decide_not, not_lt]

/-- C3: the items that survive the filter loop are exactly the inventory
entries satisfying the conjunction of all supplied predicates: case-insensitive
substring containment for `name`, inclusive bounds for `min_price`,
`max_price`, `min_quantity`; an empty result is just the empty list, not an
error. -/
theorem list_items_filter_spec (q : ListQuery) (s : AppState) :
    filteredResults q s = s.inventory.filter (fun p => specKeep q p.2) ∧
    (∀ p, p ∈ filteredResults q s ↔ p ∈ s.inventory ∧ specKeep q p.2 = true) := by
  have hfe : filteredResults q s = s.inventory.filter (fun p => specKeep q p.2) := by
    unfold filteredResults
    congr 1
    funext p
    exact keepItem_eq_specKeep q p.2
  refine ⟨hfe, fun p => ?_⟩
  rw [hfe]
  exact List.mem_filter

/-! ### C5: pagination -/

/-- C5: the response's `items` are the slice `[skip, skip + limit)` of the
filtered-and-sorted list, `total` is the length of the filtered list before
pagination, and `skip` and `limit` are echoed back. -/
theorem list_items_pagination_spec (q : ListQuery) (s : AppState)
    (h1 : 1 ≤ q.limit) (h2 : q.limit ≤ 50) :
    (list_items q s).items = ((sortedResults q s).drop q.skip).take q.limit ∧
    (list_items q s).total = (filteredResults q s).length ∧
    (list_items q s).skip = q.skip ∧ (list_items q s).limit = q.limit :=
  ⟨rfl, (List.perm_insertionSort _ _).length_eq, rfl, rfl⟩

/-- A concrete store with 25 items (ids 1..25) for the pagination witness. -/
def sampleState : AppState :=
  { inventory := (List.range 25).map (fun i => (i + 1,
      { name := "item", quantity := (i : Int), price := ((i % 7 : Nat) : Rat),
        description := none, created_by := some "admin" })),
    next_item_id := 26, fake_users_db := [] }

/-- The claim's example query: `skip = 10`, `limit = 10`, sorted by price. -/
def sampleQuery : ListQuery :=
  { skip := 10, limit := 10, sort_by := .price }

/-- Witness for C5: 25 matching items, `skip = 10`, `limit = 10`. -/
theorem list_items_pagination_spec_witness :
    (list_items sampleQuery sampleState).items =
      ((sortedResults sampleQuery sampleState).drop sampleQuery.skip).take
        sampleQuery.limit ∧
    (list_items sampleQuery sampleState).total =
      (filteredResults sampleQuery sampleState).length ∧
    (list_items sampleQuery sampleState).skip = sampleQuery.skip ∧
    (list_items sampleQuery sampleState).limit = sampleQuery.limit :=
  list_items_pagination_spec sampleQuery sampleState (by decide) (by decide)

/-! ### C4: sorting -/

theorem charListLe_refl : ∀ l : List Char, charListLe l l = true
  | [] => rfl
  | a :: t => by
    simp only [charListLe, lt_irrefl, if_neg, if_false]
    exact charListLe_refl t

theorem charListLe_total : ∀ l1 l2 : List Char,
    charListLe l1 l2 = true ∨ charListLe l2 l1 = true
  | [], _ => Or.inl rfl
  | _ :: _, [] => Or.inr rfl
  | a :: as, b :: bs => by
    rcases Nat.lt_trichotomy a.toNat b.toNat with h | h | h
    · left
      simp [charListLe, h]
    · simp only [charListLe, h, lt_irrefl, if_neg, if_false]
      exact charListLe_total as bs
    · right
      simp [charListLe, h]

theorem charListLe_trans : ∀ l1 l2 l3 : List Char,
    charListLe l1 l2 = true → charListLe l2 l3 = true → charListLe l1 l3 = true
  | [], _, _, _, _ => rfl
  | a :: as, [], _, h12, _ => by cases h12
  | _ :: _, _ :: _, [], _, h23 => by cases h23
  | a :: as, b :: bs, c :: cs, h12, h23 => by
    simp only [charListLe] at h12 h23 ⊢
    rcases Nat.lt_trichotomy a.toNat b.toNat with hab | hab | hab
    · rcases Nat.lt_trichotomy b.toNat c.toNat with hbc | hbc | hbc
      · rw [if_pos (hab.trans hbc)]
      · rw [if_pos (hbc ▸ hab)]
      · rw [if_pos hbc, if_neg (by omega)] at h23
        cases h23
    · rw [if_neg (by omega), if_neg (by omega)] at h12
      rcases Nat.lt_trichotomy b.toNat c.toNat with hbc | hbc | hbc
      · rw [if_pos (by omega)]
      · rw [if_neg (by omega), if_neg (by omega)] at h23
        rw [if_neg (by omega), if_neg (by omega)]
        exact charListLe_trans as bs cs h12 h23
      · rw [if_neg (by omega), if_pos (by omega)] at h23
        cases h23
    · rw [if_neg (by omega), if_pos hab] at h12
      cases h12

theorem sortLe_total (sb : SortKey) (ord : SortOrder) (a b : Nat × StoredItem) :
    sortLe sb ord a b = true ∨ sortLe sb ord b a = true := by
  cases ord <;> cases sb <;>
    simp only [sortLe] <;>
    first
      | exact charListLe_total ..
      | · rw [decide_eq_true_iff, decide_eq_true_iff]
          exact le_total ..

theorem sortLe_trans (sb : SortKey) (ord : SortOrder) (a b c : Nat × StoredItem)
    (h1 : sortLe sb ord a b = true) (h2 : sortLe sb ord b c = true) :
    sortLe sb ord a c = true := by
  cases ord <;> cases sb <;>
    simp only [sortLe, decide_eq_true_iff] at h1 h2 ⊢ <;>
    first
      | exact charListLe_trans _ _ _ h1 h2
      | exact charListLe_trans _ _ _ h2 h1
      | exact le_trans h1 h2
      | exact le_trans h2 h1

/-- Equality of the single chosen sort key. -/
def sameKey (sb : SortKey) (a b : Nat × StoredItem) : Prop :=
  match sb with
  | .name => a.2.name = b.2.name
  | .price => a.2.price = b.2.price
  | .quantity => a.2.quantity = b.2.quantity

theorem sortLe_of_sameKey {sb : SortKey} (ord : SortOrder)
    {a b : Nat × StoredItem} (h : sameKey sb a b) :
    sortLe sb ord a b = true := by
  cases ord <;> cases sb <;>
    simp only [sameKey] at h <;>
    simp only [sortLe, h, decide_eq_true_iff, le_refl, charListLe_refl]

theorem sortLe_desc_eq (sb : SortKey) (a b : Nat × StoredItem) :
    sortLe sb .desc a b = sortLe sb .asc b a := by
  cases sb <;> rfl

/-- C4: the sort is a permutation of the filtered list, is sorted by the single
chosen key in the chosen direction (with `order = desc` the sequence is
non-increasing in the key), and is stable: any two items with equal key values
keep their relative original order, whatever the direction. -/
theorem list_items_sort_spec (q : ListQuery) (s : AppState) :
    (sortedResults q s).Perm (filteredResults q s) ∧
    (sortedResults q s).Pairwise
      (fun a b => sortLe q.sort_by q.order a b = true) ∧
    (q.order = .desc → (sortedResults q s).Pairwise
      (fun a b => sortLe q.sort_by .asc b a = true)) ∧
    (∀ a b, sameKey q.sort_by a b → [a, b].Sublist (filteredResults q s) →
       [a, b].Sublist (sortedResults q s)) := by
  have hsorted : (sortedResults q s).Pairwise
      (fun a b => sortLe q.sort_by q.order a b = true) := by
    haveI : IsTotal (Nat × StoredItem)
        (fun a b => sortLe q.sort_by q.order a b = true) :=
      ⟨fun a b => sortLe_total q.sort_by q.order a b⟩
    haveI : IsTrans (Nat × StoredItem)
        (fun a b => sortLe q.sort_by q.order a b = true) :=
      ⟨fun a b c => sortLe_trans q.sort_by q.order a b c⟩
    exact List.sorted_insertionSort _ _
  refine ⟨List.perm_insertionSort _ _, hsorted, ?_, ?_⟩
  · intro hdesc
    refine hsorted.imp (fun h => ?_)
    rw [← sortLe_desc_eq, ← hdesc]
    exact h
  · intro a b hk hsub
    exact List.pair_sublist_insertionSort (sortLe_of_sameKey q.order hk) hsub

/-! ### C1: identifier assignment -/

/-- The reachable-state invariant: every stored id is below the counter. -/
def KeysBelow (s : AppState) : Prop :=
  ∀ p ∈ s.inventory, p.1 < s.next_item_id

theorem keysBelow_applyOp (s : AppState) (op : Op) (h : KeysBelow s) :
    KeysBelow (applyOp s op) := by
  cases op with
  | add item u =>
    intro p hp
    rcases mem_dictInsert hp with hmem | heq
    · exact Nat.lt_succ_of_lt (h p hmem)
    · rw [heq]
      exact Nat.lt_succ_self _
  | update i item u =>
    simp only [applyOp, update_item]
    cases hl : dictLookup i s.inventory with
    | none => exact h
    | some ex =>
      intro p hp
      rcases mem_dictInsert hp with hmem | heq
      · exact h p hmem
      · rw [heq]
        show i < s.next_item_id
        exact h _ (mem_of_dictLookup_eq_some hl)
  | del i =>
    simp only [applyOp, delete_item]
    cases hl : dictLookup i s.inventory with
    | none => exact h
    | some ex =>
      intro p hp
      exact h p (List.mem_of_mem_filter hp)

theorem applyOp_update_next (s : AppState) (i : Nat) (item : InventoryItem)
    (u : String) :
    (applyOp s (.update i item u)).next_item_id = s.next_item_id := by
  simp only [applyOp, update_item]
  cases dictLookup i s.inventory <;> rfl

theorem applyOp_del_next (s : AppState) (i : Nat) :
    (applyOp s (.del i)).next_item_id = s.next_item_id := by
  simp only [applyOp, delete_item]
  cases dictLookup i s.inventory <;> rfl

/-- The lower bound a well-formed event trace maintains: every assigned id is
at least the current counter (which then moves past it), and every deleted id
is below the current counter. -/
def goodEvents : Nat → List Ev → Prop
  | _, [] => True
  | n, .assigned i :: rest => n ≤ i ∧ goodEvents (i + 1) rest
  | n, .deleted i :: rest => i < n ∧ goodEvents n rest

theorem goodEvents_runEvents : ∀ (ops : List Op) (s : AppState), KeysBelow s →
    goodEvents s.next_item_id (runEvents s ops)
  | [], _, _ => trivial
  | op :: rest, s, h => by
    cases op with
    | add item u =>
      simp only [runEvents, opEvents, List.cons_append, List.nil_append,
        goodEvents]
      refine ⟨Nat.le_refl _, ?_⟩
      exact goodEvents_runEvents rest _ (keysBelow_applyOp s (.add item u) h)
    | update i item u =>
      simp only [runEvents, opEvents, List.nil_append]
      have hn := applyOp_update_next s i item u
      rw [← hn]
      exact goodEvents_runEvents rest _ (keysBelow_applyOp s (.update i item u) h)
    | del i =>
      cases hl : dictLookup i s.inventory with
      | none =>
        simp only [runEvents, opEvents, applyOp, delete_item, hl,
          List.nil_append]
        exact goodEvents_runEvents rest s h
      | some ex =>
        simp only [runEvents, opEvents, applyOp, delete_item, hl,
          List.cons_append, List.nil_append, goodEvents]
        refine ⟨h _ (mem_of_dictLookup_eq_some hl), ?_⟩
        have h' := keysBelow_applyOp s (.del i) h
        simp only [applyOp, delete_item, hl] at h'
        exact goodEvents_runEvents rest _ h'

theorem assigned_mem_assignedIds : ∀ {evs : List Ev} {i : Nat},
    Ev.assigned i ∈ evs → i ∈ assignedIds evs
  | [], _, h => by cases h
  | .assigned j :: t, i, h => by
    simp only [assignedIds]
    rcases List.mem_cons.mp h with h1 | h1
    · injection h1 with hij
      rw [hij]
      exact List.mem_cons_self _ _
    · exact List.mem_cons_of_mem _ (assigned_mem_assignedIds h1)
  | .deleted j :: t, i, h => by
    simp only [assignedIds]
    rcases List.mem_cons.mp h with h1 | h1
    · cases h1
    · exact assigned_mem_assignedIds h1

theorem goodEvents_lb : ∀ (evs : List Ev) (n : Nat), goodEvents n evs →
    ∀ i ∈ assignedIds evs, n ≤ i
  | [], _, _, i, h => by cases h
  | .assigned j :: t, n, hg, i, h => by
    simp only [goodEvents] at hg
    simp only [assignedIds] at h
    rcases List.mem_cons.mp h with h1 | h1
    · rw [h1]
      exact hg.1
    · have := goodEvents_lb t (j + 1) hg.2 i h1
      omega
  | .deleted j :: t, n, hg, i, h => by
    simp only [goodEvents] at hg
    simp only [assignedIds] at h
    exact goodEvents_lb t n hg.2 i h

theorem goodEvents_pairwise : ∀ (evs : List Ev) (n : Nat), goodEvents n evs →
    (assignedIds evs).Pairwise (· < ·)
  | [], _, _ => List.Pairwise.nil
  | .assigned j :: t, n, hg => by
    simp only [goodEvents] at hg
    simp only [assignedIds]
    refine List.Pairwise.cons (fun k hk => ?_) (goodEvents_pairwise t (j + 1) hg.2)
    have := goodEvents_lb t (j + 1) hg.2 k hk
    omega
  | .deleted j :: t, n, hg => by
    simp only [goodEvents] at hg
    simp only [assignedIds]
    exact goodEvents_pairwise t n hg.2

theorem goodEvents_no_reassign : ∀ (l1 : List Ev) (n d : Nat) (l2 : List Ev),
    goodEvents n (l1 ++ .deleted d :: l2) → Ev.assigned d ∉ l2
  | [], n, d, l2, hg => by
    simp only [List.nil_append, goodEvents] at hg
    intro hmem
    have := goodEvents_lb l2 n hg.2 d (assigned_mem_assignedIds hmem)
    omega
  | .assigned j :: t, n, d, l2, hg => by
    simp only [List.cons_append, goodEvents] at hg
    exact goodEvents_no_reassign t (j + 1) d l2 hg.2
  | .deleted j :: t, n, d, l2, hg => by
    simp only [List.cons_append, goodEvents] at hg
    exact goodEvents_no_reassign t n d l2 hg.2

theorem runOps_next : ∀ (ops : List Op) (s : AppState),
    (runOps s ops).next_item_id = s.next_item_id + countAdds ops
  | [], s => rfl
  | .add item u :: t, s => by
    simp only [runOps, countAdds]
    rw [runOps_next t _]
    have hn : (applyOp s (.add item u)).next_item_id = s.next_item_id + 1 := rfl
    rw [hn]
    omega
  | .update i item u :: t, s => by
    simp only [runOps, countAdds]
    rw [runOps_next t _, applyOp_update_next]
  | .del i :: t, s => by
    simp only [runOps, countAdds]
    rw [runOps_next t _, applyOp_del_next]

/-- C1: along every sequence of add/update/delete calls from the initial
state, the assigned identifiers are strictly increasing (hence unique), an
identifier freed by a delete is never assigned afterwards, and the counter
ends at 1 plus the number of adds — it starts at 1, gains 1 on every add and
is never decremented. -/
theorem item_ids_unique_increasing_never_reused
    (users : List (String × UserInDB)) (ops : List Op) :
    (assignedIds (runEvents (initState users) ops)).Pairwise (· < ·) ∧
    (∀ l1 d l2, runEvents (initState users) ops = l1 ++ Ev.deleted d :: l2 →
       Ev.assigned d ∉ l2) ∧
    (runOps (initState users) ops).next_item_id = 1 + countAdds ops := by
  have h0 : KeysBelow (initState users) := by
    intro p hp
    simp [initState] at hp
  have hg := goodEvents_runEvents ops (initState users) h0
  refine ⟨goodEvents_pairwise _ _ hg, ?_, ?_⟩
  · intro l1 d l2 he
    rw [he] at hg
    exact goodEvents_no_reassign l1 _ d l2 hg
  · rw [runOps_next]
    simp only [initState]

end Inventory

